import Mathlib

/-!
Verification development for the task orchestration subsystem of
claude-code-server: a shallow embedding of the persistent task store, the
session store, the scheduler's dispatch/settle logic, the webhook notifier's
retry loop, and the stop/drain logic, together with theorems settling the
frozen claims about them.

Conventions of the embedding:
* ISO-8601 timestamps are embedded as natural numbers of milliseconds
  (string comparison of ISO timestamps and `new Date(...)` arithmetic are
  both order-isomorphic to this).
* JS numbers holding dollar amounts are embedded as rationals.
* Task and session ids (strings from `generateId()`) are embedded as
  naturals.
* Fallible operations return `Option` results paired with the post state of
  the store; every store operation is a pure state transformer
  `List Task → ... → Option Task × List Task`, the explicit-state form of a
  method running under `withLock` on `this.db.data.tasks`.
-/

set_option maxHeartbeats 1000000

namespace ClaudeCodeServer

/-- Task lifecycle status (`src/src/storage/statsStore.js`, task records). -/
inductive TStatus where
  | pending
  | processing
  | completed
  | failed
  | cancelled
deriving DecidableEq, Repr

/-- Session lifecycle status (`src/src/storage/statsStore.js`, session records). -/
inductive SStatus where
  | active
  | archived
deriving DecidableEq, Repr

/-- The metadata keys of a task that the scheduler and the HTTP layer read
(`webhook_url` in `executeTask`, `session_id` placed there by the
`POST /api/claude` route).  The remaining metadata keys (`system_prompt`,
`max_budget_usd`, `allowed_tools`, `disallowed_tools`, `agent`,
`mcp_config`) are carried opaquely to the executor and never influence any
store transition, so they are elided from the embedding. -/
structure TaskMetadata where
  webhook_url : Option String := none
  session_id : Option Nat := none
deriving DecidableEq, Repr

/-- A task record, with exactly the fields built by `TaskStore.create`
(`src/src/storage/statsStore.js` lines 234-258). -/
structure Task where
  id : Nat
  created_at : Nat
  updated_at : Nat
  status : TStatus
  prompt : String
  project_path : String
  model : String
  priority : Nat
  result : Option String
  error : Option String
  started_at : Option Nat
  completed_at : Option Nat
  duration_ms : Option Int
  cost_usd : Rat
  session_id : Option Nat
  metadata : TaskMetadata
deriving DecidableEq, Repr

/-- The caller-supplied record accepted by `TaskStore.create`.  A caller may
put a `session_id` key in it; `create` never reads that key. -/
structure TaskData where
  prompt : String
  project_path : String
  model : Option String := none
  priority : Option Nat := none
  metadata : Option TaskMetadata := none
  session_id : Option Nat := none
deriving Repr

/-- JS `v || dflt` on an optional string: `undefined`, `null` and the empty
string are falsy. -/
def jsOrString (v : Option String) (dflt : String) : String :=
  match v with
  | some s => if s = "" then dflt else s
  | none => dflt

/-- JS `v || dflt` on an optional natural: `undefined`, `null` and `0` are
falsy. -/
def jsOrNat (v : Option Nat) (dflt : Nat) : Nat :=
  match v with
  | some n => if n = 0 then dflt else n
  | none => dflt

/-- `TaskStore.create` (`statsStore.js` lines 234-258): fill defaults,
append, return the new record.  `generateId()` and `now()` live in the base
store and are passed in as `newId` and `now`. -/
def TaskStore.create (tasks : List Task) (td : TaskData) (newId now : Nat) :
    Task × List Task :=
  let task : Task :=
    { id := newId
      created_at := now
      updated_at := now
      status := .pending
      prompt := td.prompt
      project_path := td.project_path
      model := jsOrString td.model "claude-sonnet-4-5"
      priority := jsOrNat td.priority 5
      result := none
      error := none
      started_at := none
      completed_at := none
      duration_ms := none
      cost_usd := 0
      session_id := none
      metadata := td.metadata.getD {} }
  (task, tasks ++ [task])

/-- `TaskStore.get` (`statsStore.js` lines 263-266): first record with the
given id. -/
def TaskStore.get (tasks : List Task) (taskId : Nat) : Option Task :=
  tasks.find? (fun t => t.id == taskId)

/-- A shallow-merge patch as passed to `TaskStore.update`.  The fields are
exactly the union of the keys patched anywhere in the source
(`markProcessing`, `markCompleted`, `markFailed`, `cancel`, the priority
route, and crash recovery); the inner `Option` of a nullable field lets a
patch explicitly store `null`, as `markCompleted` does for `duration_ms`. -/
structure TaskPatch where
  status : Option TStatus := none
  started_at : Option (Option Nat) := none
  completed_at : Option (Option Nat) := none
  result : Option (Option String) := none
  error : Option (Option String) := none
  duration_ms : Option (Option Int) := none
  cost_usd : Option Rat := none
  priority : Option Nat := none
deriving Repr

/-- The shallow merge `{...record, ...patch, updated_at: now}` performed by
`TaskStore.update`. -/
def applyPatch (t : Task) (p : TaskPatch) (now : Nat) : Task :=
  { t with
    status := p.status.getD t.status
    started_at := p.started_at.getD t.started_at
    completed_at := p.completed_at.getD t.completed_at
    result := p.result.getD t.result
    error := p.error.getD t.error
    duration_ms := p.duration_ms.getD t.duration_ms
    cost_usd := p.cost_usd.getD t.cost_usd
    priority := p.priority.getD t.priority
    updated_at := now }

/-- `TaskStore.update` (`statsStore.js` lines 271-287): replace the first
record with the given id by its shallow merge with the patch; `null` result
and unchanged store when no record matches. -/
def TaskStore.update (tasks : List Task) (taskId : Nat) (p : TaskPatch) (now : Nat) :
    Option Task × List Task :=
  match tasks with
  | [] => (none, [])
  | t :: rest =>
    if t.id = taskId then
      (some (applyPatch t p now), applyPatch t p now :: rest)
    else
      let r := TaskStore.update rest taskId p now
      (r.1, t :: r.2)

/-- The comparator of `list` and `getNextPending` (`statsStore.js` lines
318-323 and 341-346): priority descending, then `created_at` ascending.
`taskLe a b` means the JS comparator returns a non-positive number on
`(a, b)`, i.e. the stable sort keeps `a` before `b`. -/
def taskLe (a b : Task) : Bool :=
  if a.priority ≠ b.priority then decide (b.priority < a.priority)
  else decide (a.created_at ≤ b.created_at)

/-- `TaskStore.list` (`statsStore.js` lines 307-331): filter by status when
given, sort with the priority/created_at comparator (JS `Array.sort` is
stable), slice to `limit` when given and nonzero (`if (options.limit)`
treats `0` as absent). -/
def TaskStore.list (tasks : List Task) (status? : Option TStatus) (limit? : Option Nat) :
    List Task :=
  let filtered : List Task := match status? with
    | some st => tasks.filter (fun t => t.status == st)
    | none => tasks
  let sorted := filtered.mergeSort taskLe
  match limit? with
  | some n => if n = 0 then sorted else sorted.take n
  | none => sorted

/-- `TaskStore.getNextPending` (`statsStore.js` lines 336-349): the head of
the pending tasks under the same stable sort, `null` when none. -/
def TaskStore.getNextPending (tasks : List Task) : Option Task :=
  ((tasks.filter (fun t => t.status == TStatus.pending)).mergeSort taskLe).head?

/-- `TaskStore.markProcessing` (`statsStore.js` lines 354-359). -/
def TaskStore.markProcessing (tasks : List Task) (taskId now : Nat) :
    Option Task × List Task :=
  TaskStore.update tasks taskId
    { status := some .processing, started_at := some (some now) } now

/-- `TaskStore.markCompleted` (`statsStore.js` lines 364-381): note that it
performs no status check whatsoever before patching the record. -/
def TaskStore.markCompleted (tasks : List Task) (taskId : Nat) (result : Option String)
    (costUsd : Rat) (now : Nat) : Option Task × List Task :=
  match TaskStore.get tasks taskId with
  | none => (none, tasks)
  | some task =>
    let duration : Option Int := task.started_at.map (fun s => (now : Int) - (s : Int))
    TaskStore.update tasks taskId
      { status := some .completed
        completed_at := some (some now)
        result := some result
        cost_usd := some costUsd
        duration_ms := some duration } now

/-- `TaskStore.markFailed` (`statsStore.js` lines 386-402): also performs no
status check. -/
def TaskStore.markFailed (tasks : List Task) (taskId : Nat) (error : Option String)
    (now : Nat) : Option Task × List Task :=
  match TaskStore.get tasks taskId with
  | none => (none, tasks)
  | some task =>
    let duration : Option Int := task.started_at.map (fun s => (now : Int) - (s : Int))
    TaskStore.update tasks taskId
      { status := some .failed
        completed_at := some (some now)
        error := some error
        duration_ms := some duration } now

/-- `TaskStore.cancel` (`statsStore.js` lines 407-422): refuses any status
other than `pending` and `processing`, returning `null` without touching the
store. -/
def TaskStore.cancel (tasks : List Task) (taskId now : Nat) :
    Option Task × List Task :=
  match TaskStore.get tasks taskId with
  | none => (none, tasks)
  | some task =>
    if task.status ≠ .pending ∧ task.status ≠ .processing then (none, tasks)
    else
      TaskStore.update tasks taskId
        { status := some .cancelled, completed_at := some (some now) } now

/-- A session record, with the fields built by `SessionStore.create`
(`statsStore.js` session section, lines 490-507).  The free-form `metadata`
map is elided: no claim reads it. -/
structure Session where
  id : Nat
  created_at : Nat
  updated_at : Nat
  model : String
  project_path : String
  total_cost_usd : Rat
  messages_count : Nat
  status : SStatus
deriving DecidableEq, Repr

/-- Caller-supplied record for `SessionStore.create`. -/
structure SessionData where
  model : Option String := none
  project_path : String
deriving Repr

/-- `SessionStore.create` (`statsStore.js` lines 490-507). -/
def SessionStore.create (sessions : List Session) (sd : SessionData) (newId now : Nat) :
    Session × List Session :=
  let s : Session :=
    { id := newId
      created_at := now
      updated_at := now
      model := jsOrString sd.model "claude-sonnet-4-5"
      project_path := sd.project_path
      total_cost_usd := 0
      messages_count := 0
      status := .active }
  (s, sessions ++ [s])

/-- `SessionStore.get` (`statsStore.js` lines 512-515). -/
def SessionStore.get (sessions : List Session) (sessionId : Nat) : Option Session :=
  sessions.find? (fun s => s.id == sessionId)

/-- `SessionStore.incrementMessages` (`statsStore.js` lines 625-637):
find the session, bump `messages_count` by one, refresh `updated_at`;
`null` and unchanged store when absent. -/
def SessionStore.incrementMessages :
    List Session → Nat → Nat → Option Session × List Session
  | [], _, _ => (none, [])
  | s :: rest, sessionId, now =>
    if s.id = sessionId then
      let s2 := { s with messages_count := s.messages_count + 1, updated_at := now }
      (some s2, s2 :: rest)
    else
      let r := SessionStore.incrementMessages rest sessionId now
      (r.1, s :: r.2)

/-- `SessionStore.addCost` (`statsStore.js` lines 642-654): find the
session, add the delta to `total_cost_usd` with no validation of any kind,
refresh `updated_at`. -/
def SessionStore.addCost :
    List Session → Nat → Rat → Nat → Option Session × List Session
  | [], _, _, _ => (none, [])
  | s :: rest, sessionId, costUsd, now =>
    if s.id = sessionId then
      let s2 := { s with total_cost_usd := s.total_cost_usd + costUsd, updated_at := now }
      (some s2, s2 :: rest)
    else
      let r := SessionStore.addCost rest sessionId costUsd now
      (r.1, s :: r.2)

/-- One store mutation of the session store, for stating invariants over
operation sequences. -/
inductive SessionOp where
  | incMessages (sessionId now : Nat)
  | addSessionCost (sessionId : Nat) (delta : Rat) (now : Nat)
deriving Repr

/-- Apply one session-store mutation, keeping the post state. -/
def applySessionOp (sessions : List Session) : SessionOp → List Session
  | .incMessages sid now => (SessionStore.incrementMessages sessions sid now).2
  | .addSessionCost sid d now => (SessionStore.addCost sessions sid d now).2

/-- Run a sequence of session-store mutations. -/
def runSessionOps (sessions : List Session) (ops : List SessionOp) : List Session :=
  ops.foldl applySessionOp sessions

/-- The cost delta an operation adds (zero for `incrementMessages`). -/
def SessionOp.costDelta : SessionOp → Rat
  | .incMessages _ _ => 0
  | .addSessionCost _ d _ => d

/-- The `messages_count` the store shows for a session id (zero when the
session is absent). -/
def msgCount (sessions : List Session) (sessionId : Nat) : Nat :=
  match SessionStore.get sessions sessionId with
  | some s => s.messages_count
  | none => 0

/-- The executor reply as consumed by `executeTask`
(`src/src/services/taskQueue.js` lines 181-203). -/
structure ExecResult where
  success : Bool
  result : Option String := none
  error : Option String := none
  cost_usd : Rat := 0
  duration_ms : Int := 0
  session_id : Option Nat := none
deriving Repr

/-- The store effects of `executeTask` once the executor has returned before
the timeout (`taskQueue.js` lines 197-242): on success `markCompleted` with
the reply's result and cost, otherwise `markFailed` with its error.
`executeTask` holds no reference to any session store — the queue is
constructed with `(config, taskStore, claudeExecutor, webhookNotifier)`
only — so the session store is passed through unchanged; webhook emission,
event emission and the `activeTasks` bookkeeping touch no store. -/
def executeTaskSettle (tasks : List Task) (sessions : List Session) (taskId : Nat)
    (r : ExecResult) (now : Nat) : List Task × List Session :=
  if r.success then
    ((TaskStore.markCompleted tasks taskId r.result r.cost_usd now).2, sessions)
  else
    ((TaskStore.markFailed tasks taskId r.error now).2, sessions)

/-- The timeout path of `executeTask` (`taskQueue.js` lines 160-177):
`markFailed` with the literal timeout message. -/
def executeTaskTimeout (tasks : List Task) (taskId now : Nat) : List Task :=
  (TaskStore.markFailed tasks taskId (some "Task execution timeout") now).2

/-- The patch crash recovery applies to each `processing` task
(`taskQueue.js` line 339). -/
def pendingPatch : TaskPatch := { status := some TStatus.pending }

/-- `restorePendingTasks` (`taskQueue.js` lines 329-342): list the tasks
persisted as `processing`, then update each one's status to `pending`.
`start` awaits this before spawning the dispatch loop (lines 31-51). -/
def restorePendingTasks (tasks : List Task) (now : Nat) : List Task :=
  (TaskStore.list tasks (some .processing) none).foldl
    (fun acc t => (TaskStore.update acc t.id pendingPatch now).2) tasks

/-- Outcome of one `axios.post` call as `WebhookNotifier.notify` sees it:
the promise either resolves with a status code or rejects with an error
message. -/
inductive AxiosOutcome where
  | resolved (status : Nat)
  | rejected (message : String)
deriving DecidableEq, Repr

/-- axios's default `validateStatus` rejects every response outside
[200, 300), so a resolved outcome always carries a 2xx status.  Stated as a
predicate on the per-attempt outcome oracle. -/
def axiosDefaultValidate (oc : Nat → AxiosOutcome) : Prop :=
  ∀ a s, oc a = AxiosOutcome.resolved s → 200 ≤ s ∧ s < 300

/-- Result value of `WebhookNotifier.notify` (webhook notifier source,
lines 58-110), restricted to the fields the claims mention. -/
inductive NotifyRes where
  | ok (status attempt : Nat)
  | fail (lastError : Option String)
deriving DecidableEq, Repr

/-- A run of the retry loop: its result, the number of the last attempt
made, and the sleeps performed between attempts, in order. -/
structure NotifyTrace where
  res : NotifyRes
  attempts : Nat
  sleeps : List Nat
deriving DecidableEq, Repr

/-- The exponential backoff delay slept after a failed attempt:
`Math.min(1000 * Math.pow(2, attempt - 1), 10000)`. -/
def backoffDelay (attempt : Nat) : Nat :=
  min (1000 * 2 ^ (attempt - 1)) 10000

/-- The body of `WebhookNotifier.notify`'s retry loop (notifier source,
lines 41-96) over the list of remaining attempt numbers: a resolved
response returns success when its status is in [200, 300) and otherwise
records an `Unexpected status code` error without sleeping; a rejected
request records the error and sleeps the backoff delay unless this was the
final attempt. -/
def notifyGo (oc : Nat → AxiosOutcome) (maxRetries : Nat) :
    List Nat → Option String → Nat → List Nat → NotifyTrace
  | [], lastError, att, sleeps => ⟨.fail lastError, att, sleeps⟩
  | a :: rest, _, _, sleeps =>
    match oc a with
    | .resolved s =>
      if 200 ≤ s ∧ s < 300 then ⟨.ok s a, a, sleeps⟩
      else
        notifyGo oc maxRetries rest
          (some ("Unexpected status code: " ++ toString s)) a sleeps
    | .rejected m =>
      if a < maxRetries then
        notifyGo oc maxRetries rest (some m) a (sleeps ++ [backoffDelay a])
      else
        notifyGo oc maxRetries rest (some m) a sleeps

/-- `WebhookNotifier.notify`'s retry loop, attempts `1..maxRetries`
(`for (let attempt = 1; attempt <= this.maxRetries; attempt++)`); the
enabled/no-url guards above the loop return without making any attempt and
are outside this embedding. -/
def runNotify (oc : Nat → AxiosOutcome) (maxRetries : Nat) : NotifyTrace :=
  notifyGo oc maxRetries (List.range' 1 maxRetries) none 0 []

/-- The drain wait of `stop()` (`taskQueue.js` lines 78-80):
`while (this.activeTasks.size > 0) await sleep(100)`.  Given the size of the
active set at each successive 100 ms poll and the fact that it eventually
drains, the loop exits at the first poll observing size zero; no other
condition ends it. -/
def stopDrainPolls (sz : Nat → Nat) (h : ∃ k, sz k = 0) : Nat :=
  Nat.find h

/-- Wall-clock milliseconds after which `stop()` returns: one 100 ms sleep
per poll that still saw active tasks. -/
def stopReturnTimeMs (sz : Nat → Nat) (h : ∃ k, sz k = 0) : Nat :=
  100 * stopDrainPolls sz h

/-- The soft deadline of `stop()`: the `setTimeout(..., 10000)` armed at
lines 70-76. -/
def stopSoftDeadlineMs : Nat := 10000

/-- What the 10-second timer does when it fires with tasks still active
(`taskQueue.js` lines 70-76): it logs `Forcing shutdown with active tasks`.
It does not break the drain loop. -/
def stopWarnsAtDeadline (sz : Nat → Nat) : Bool :=
  decide (0 < sz (stopSoftDeadlineMs / 100))

/-- The task payload built by `POST /api/claude` in async mode
(`src/src/routes/claude.js` lines 77-92): top-level fields plus a metadata
object carrying the webhook URL and the session id.  No top-level
`session_id` key is passed. -/
def claudeRouteTaskData (prompt projectPath : String) (model : Option String)
    (priority : Option Nat) (webhookUrl : Option String) (sessionId : Option Nat) :
    TaskData :=
  { prompt := prompt
    project_path := projectPath
    model := model
    priority := some (jsOrNat priority 5)
    metadata := some { webhook_url := webhookUrl, session_id := sessionId }
    session_id := none }

/-- Program counter of one invocation of `processQueue`
(`taskQueue.js` lines 106-144).  The code between two `await`s runs
atomically on the event loop, so the yield points are exactly:
entry up to the `await this.taskStore.getNextPending()` (the running and
capacity checks), the resumption after that read (null check, duplicate
check, slot reservation, entering `await markProcessing`), and the
resumption after `markProcessing`. -/
inductive PQPc where
  | ready
  | awaitGet
  | awaitMark (taskId : Nat)
  | done
deriving DecidableEq, Repr

/-- Scheduler state for the dispatch-interleaving semantics: the persisted
task list, the in-memory `activeTasks` key set (a JS `Map`, so `set` of an
absent key appends and `delete` erases), the lifecycle flag, the configured
concurrency, and the program counters of the outstanding `processQueue`
invocations (spawned by the periodic tick, `addTask`, and task
termination). -/
structure SchedState where
  tasks : List Task
  active : List Nat
  running : Bool
  concurrency : Nat
  invs : List PQPc
deriving Repr

/-- One atomic event-loop segment of some `processQueue` invocation.
`executeTask`, once spawned, only ever deletes ids from `active` (its
re-`set` of the already-present key changes nothing), so its steps cannot
grow the active set and are omitted. -/
inductive SchedStep : SchedState → SchedState → Prop where
  | beginDispatch (s : SchedState) (i : Nat)
      (hpc : s.invs[i]? = some PQPc.ready)
      (hrun : s.running = true)
      (hcap : s.active.length < s.concurrency) :
      SchedStep s { s with invs := s.invs.set i PQPc.awaitGet }
  | beginRefuse (s : SchedState) (i : Nat)
      (hpc : s.invs[i]? = some PQPc.ready)
      (h : s.running = false ∨ s.concurrency ≤ s.active.length) :
      SchedStep s { s with invs := s.invs.set i PQPc.done }
  | resolveGetNone (s : SchedState) (i : Nat)
      (hpc : s.invs[i]? = some PQPc.awaitGet)
      (hget : TaskStore.getNextPending s.tasks = none) :
      SchedStep s { s with invs := s.invs.set i PQPc.done }
  | resolveGetDup (s : SchedState) (i : Nat) (t : Task)
      (hpc : s.invs[i]? = some PQPc.awaitGet)
      (hget : TaskStore.getNextPending s.tasks = some t)
      (hmem : t.id ∈ s.active) :
      SchedStep s { s with invs := s.invs.set i PQPc.done }
  | resolveGetReserve (s : SchedState) (i : Nat) (t : Task)
      (hpc : s.invs[i]? = some PQPc.awaitGet)
      (hget : TaskStore.getNextPending s.tasks = some t)
      (hmem : t.id ∉ s.active) :
      SchedStep s
        { s with active := s.active ++ [t.id],
                 invs := s.invs.set i (PQPc.awaitMark t.id) }
  | resolveMarkOk (s : SchedState) (i taskId now : Nat)
      (hpc : s.invs[i]? = some (PQPc.awaitMark taskId)) :
      SchedStep s
        { s with tasks := (TaskStore.markProcessing s.tasks taskId now).2,
                 invs := s.invs.set i PQPc.done }
  | resolveMarkErr (s : SchedState) (i taskId : Nat)
      (hpc : s.invs[i]? = some (PQPc.awaitMark taskId)) :
      SchedStep s
        { s with active := s.active.erase taskId,
                 invs := s.invs.set i PQPc.done }

/-- A task that was cancelled while pending: terminal, never started. -/
def c1task : Task :=
  { id := 1
    created_at := 10
    updated_at := 50
    status := .cancelled
    prompt := "p"
    project_path := "/w"
    model := "claude-sonnet-4-5"
    priority := 5
    result := none
    error := none
    started_at := none
    completed_at := some 50
    duration_ms := none
    cost_usd := 0
    session_id := none
    metadata := {} }

/-- C1 — For every task, the terminal states completed, failed, and
cancelled are absorbing: once a task's status is in
{completed, failed, cancelled}, no subsequent operation (including
markCompleted, markFailed, or a late executor result arriving after the
timeout path or after cancellation has already made the task terminal)
changes its status again.

The code violates this: `markCompleted` and `markFailed` patch the record
with no status check, so a late executor success arriving after
cancellation rewrites the terminal `cancelled` status to `completed`.  This
theorem evaluates the store at the failing input: a cancelled task hit by
the `markCompleted` call that a late `result.success` branch of
`executeTask` performs. -/
theorem c1_late_result_overwrites_terminal :
    c1task.status = TStatus.cancelled ∧
    TaskStore.get [c1task] 1 = some c1task ∧
    (TaskStore.markCompleted [c1task] 1 (some "late result") 0 100).2.map
        (fun t => t.status) = [TStatus.completed] ∧
    (TaskStore.markFailed [c1task] 1 (some "late error") 100).2.map
        (fun t => t.status) = [TStatus.failed] := by
  refine ⟨rfl, ?_, ?_, ?_⟩ <;> decide

/-- Active-set sizes seen by `stop()`'s 100 ms polls when the last active
task terminates only 20 seconds after `stop()` began. -/
def c5sizes : Nat → Nat := fun k => if k < 200 then 1 else 0

/-- The drain at poll 200 (20 seconds in). -/
theorem c5drains : ∃ k, c5sizes k = 0 := ⟨200, rfl⟩

/-- C5 — stop() terminates within its soft deadline (default 10 seconds):
after setting running=false and cancelling the poll timer, it waits for the
active set to drain but returns once the deadline elapses even if active
tasks remain, merely logging that in-flight tasks are abandoned.

The code violates this: the drain loop `while (activeTasks.size > 0)` has
no deadline condition, so with a task draining at 20 s, `stop()` returns at
20 s; the 10 s timer fires, logs the warning, and the loop keeps waiting.
This theorem evaluates the embedded drain loop at that failing input. -/
theorem c5_stop_waits_past_deadline :
    stopReturnTimeMs c5sizes c5drains = 20000 ∧
    stopWarnsAtDeadline c5sizes = true ∧
    ¬ stopReturnTimeMs c5sizes c5drains ≤ stopSoftDeadlineMs := by
  have hfind : stopDrainPolls c5sizes c5drains = 200 := by
    rw [stopDrainPolls, Nat.find_eq_iff]
    constructor
    · rfl
    · intro n hn
      simp only [c5sizes, if_pos hn]
      decide
  refine ⟨?_, by decide, ?_⟩
  · rw [stopReturnTimeMs, hfind]
  · rw [stopReturnTimeMs, hfind]
    decide

/-- A freshly created pending task with the given id and creation time. -/
def mkPendingTask (i created : Nat) : Task :=
  { id := i
    created_at := created
    updated_at := created
    status := .pending
    prompt := "p"
    project_path := "/w"
    model := "claude-sonnet-4-5"
    priority := 5
    result := none
    error := none
    started_at := none
    completed_at := none
    duration_ms := none
    cost_usd := 0
    session_id := none
    metadata := {} }

/-- Initial scheduler state for the oversubscription trace: concurrency 1,
two pending tasks, two `processQueue` invocations about to run (for
example the `setImmediate` from `addTask` and a periodic tick). -/
def c3init : SchedState :=
  { tasks := [mkPendingTask 1 0, mkPendingTask 2 1]
    active := []
    running := true
    concurrency := 1
    invs := [PQPc.ready, PQPc.ready] }

/-- C3 — At every instant of any execution of the scheduler, the size of
the in-memory active set is at most the configured concurrency; no
interleaving of dispatch-loop invocations admits more than `concurrency`
tasks into the active set, because the slot is reserved in `active` before
any persistence call.

The code violates this: the capacity check `activeTasks.size >= concurrency`
runs before the `await getNextPending()` suspension, while the reservation
happens after it, so two invocations can both pass the check with the last
free slot and then both reserve.  This theorem exhibits the interleaving:
with concurrency 1, invocations A and B both pass the checks, A reserves
task 1 and persists it as processing, then B's pending read resolves
against the updated store, returns task 2, and B reserves it too — the
active set reaches size 2. -/
theorem c3_oversubscription_reachable :
    ∃ s : SchedState, Relation.ReflTransGen SchedStep c3init s ∧
      s.concurrency < s.active.length := by
  have h1 : SchedStep c3init
      { c3init with invs := [PQPc.awaitGet, PQPc.ready] } :=
    SchedStep.beginDispatch c3init 0 rfl rfl (by decide)
  have h2 : SchedStep
      { c3init with invs := [PQPc.awaitGet, PQPc.ready] }
      { c3init with invs := [PQPc.awaitGet, PQPc.awaitGet] } :=
    SchedStep.beginDispatch _ 1 rfl rfl (by decide)
  have h3 : SchedStep
      { c3init with invs := [PQPc.awaitGet, PQPc.awaitGet] }
      { c3init with active := [1],
                    invs := [PQPc.awaitMark 1, PQPc.awaitGet] } :=
    SchedStep.resolveGetReserve _ 0 (mkPendingTask 1 0) rfl
      (by simp [TaskStore.getNextPending, c3init, mkPendingTask, taskLe,
            List.mergeSort, List.splitInTwo, List.merge])
      (by decide)
  have h4 : SchedStep
      { c3init with active := [1],
                    invs := [PQPc.awaitMark 1, PQPc.awaitGet] }
      { c3init with
          tasks := (TaskStore.markProcessing c3init.tasks 1 5).2,
          active := [1],
          invs := [PQPc.done, PQPc.awaitGet] } :=
    SchedStep.resolveMarkOk _ 0 1 5 rfl
  have h5 : SchedStep
      { c3init with
          tasks := (TaskStore.markProcessing c3init.tasks 1 5).2,
          active := [1],
          invs := [PQPc.done, PQPc.awaitGet] }
      { c3init with
          tasks := (TaskStore.markProcessing c3init.tasks 1 5).2,
          active := [1, 2],
          invs := [PQPc.done, PQPc.awaitMark 2] } :=
    SchedStep.resolveGetReserve _ 1 (mkPendingTask 2 1) rfl
      (by simp [TaskStore.getNextPending, TaskStore.markProcessing,
            TaskStore.update, applyPatch, c3init, mkPendingTask, taskLe,
            List.mergeSort, List.splitInTwo, List.merge])
      (by decide)
  exact ⟨_, .head h1 (.head h2 (.head h3 (.head h4 (.head h5 .refl)))),
    by decide⟩

@[simp] theorem applyPatch_id (t : Task) (p : TaskPatch) (now : Nat) :
    (applyPatch t p now).id = t.id := rfl

@[simp] theorem applyPatch_session_id (t : Task) (p : TaskPatch) (now : Nat) :
    (applyPatch t p now).session_id = t.session_id := rfl

/-- `update` returns the merged record when the id is present. -/
theorem update_fst_of_get (tasks : List Task) (tid : Nat) (p : TaskPatch) (now : Nat)
    (t : Task) (h : TaskStore.get tasks tid = some t) :
    (TaskStore.update tasks tid p now).1 = some (applyPatch t p now) := by
  induction tasks with
  | nil => simp [TaskStore.get] at h
  | cons v rest ih =>
    by_cases hv : v.id = tid
    · rw [TaskStore.get, List.find?_cons_of_pos _ (by simp [hv])] at h
      cases h
      simp [TaskStore.update, hv]
    · rw [TaskStore.get, List.find?_cons_of_neg _ (by simp [hv])] at h
      simp [TaskStore.update, hv, ih h]

/-- After an `update` that found its record, `get` sees the merged record. -/
theorem get_update_of_get (tasks : List Task) (tid : Nat) (p : TaskPatch) (now : Nat)
    (t : Task) (h : TaskStore.get tasks tid = some t) :
    TaskStore.get (TaskStore.update tasks tid p now).2 tid
      = some (applyPatch t p now) := by
  induction tasks with
  | nil => simp [TaskStore.get] at h
  | cons v rest ih =>
    by_cases hv : v.id = tid
    · rw [TaskStore.get, List.find?_cons_of_pos _ (by simp [hv])] at h
      cases h
      simp only [TaskStore.update, if_pos hv]
      rw [TaskStore.get, List.find?_cons_of_pos _ (by simp [hv])]
    · rw [TaskStore.get, List.find?_cons_of_neg _ (by simp [hv])] at h
      simp only [TaskStore.update, if_neg hv]
      rw [TaskStore.get, List.find?_cons_of_neg _ (by simp [hv])]
      exact ih h

/-- C7 — For every pending task id, calling cancel twice in sequence
produces exactly one state change: the first call transitions the task to
`cancelled` (setting completed_at, leaving started_at null for a task
cancelled from pending), and the second call is a no-op refusal — cancel on
a task whose status is not pending or processing returns null and leaves
the record unchanged. -/
theorem c7_cancel_twice_single_change (tasks : List Task) (tid now1 now2 : Nat)
    (t : Task) (hget : TaskStore.get tasks tid = some t)
    (hst : t.status = TStatus.pending) (hstart : t.started_at = none) :
    (∃ t2, (TaskStore.cancel tasks tid now1).1 = some t2 ∧
      t2.status = TStatus.cancelled ∧
      t2.completed_at = some now1 ∧
      t2.started_at = none ∧
      TaskStore.get (TaskStore.cancel tasks tid now1).2 tid = some t2) ∧
    TaskStore.cancel (TaskStore.cancel tasks tid now1).2 tid now2
      = (none, (TaskStore.cancel tasks tid now1).2) ∧
    (∀ (ts : List Task) (i n : Nat) (u : Task), TaskStore.get ts i = some u →
      u.status ≠ TStatus.pending → u.status ≠ TStatus.processing →
      TaskStore.cancel ts i n = (none, ts)) := by
  have hcancel : TaskStore.cancel tasks tid now1
      = TaskStore.update tasks tid
          { status := some .cancelled, completed_at := some (some now1) } now1 := by
    rw [TaskStore.cancel, hget]
    exact if_neg (by simp [hst])
  set p1 : TaskPatch :=
    { status := some .cancelled, completed_at := some (some now1) } with hp1
  have hfst := update_fst_of_get tasks tid p1 now1 t hget
  have hsnd := get_update_of_get tasks tid p1 now1 t hget
  have hrefuse : ∀ (ts : List Task) (i n : Nat) (u : Task),
      TaskStore.get ts i = some u →
      u.status ≠ TStatus.pending → u.status ≠ TStatus.processing →
      TaskStore.cancel ts i n = (none, ts) := by
    intro ts i n u hu h1 h2
    rw [TaskStore.cancel, hu]
    exact if_pos ⟨h1, h2⟩
  refine ⟨⟨applyPatch t p1 now1, ?_, ?_, ?_, ?_, ?_⟩, ?_, hrefuse⟩
  · rw [hcancel]; exact hfst
  · simp [applyPatch, hp1]
  · simp [applyPatch, hp1]
  · simp [applyPatch, hp1, hstart]
  · rw [hcancel]; exact hsnd
  · apply hrefuse
    · rw [hcancel]; exact hsnd
    · simp [applyPatch, hp1]
    · simp [applyPatch, hp1]

/-- Witness for C7: a concrete pending task, cancelled twice. -/
theorem c7_witness :
    (TaskStore.get [mkPendingTask 1 0] 1 = some (mkPendingTask 1 0) ∧
      (mkPendingTask 1 0).status = TStatus.pending ∧
      (mkPendingTask 1 0).started_at = none) ∧
    ((∃ t2, (TaskStore.cancel [mkPendingTask 1 0] 1 20).1 = some t2 ∧
      t2.status = TStatus.cancelled ∧
      t2.completed_at = some 20 ∧
      t2.started_at = none ∧
      TaskStore.get (TaskStore.cancel [mkPendingTask 1 0] 1 20).2 1 = some t2) ∧
    TaskStore.cancel (TaskStore.cancel [mkPendingTask 1 0] 1 20).2 1 30
      = (none, (TaskStore.cancel [mkPendingTask 1 0] 1 20).2) ∧
    (∀ (ts : List Task) (i n : Nat) (u : Task), TaskStore.get ts i = some u →
      u.status ≠ TStatus.pending → u.status ≠ TStatus.processing →
      TaskStore.cancel ts i n = (none, ts))) :=
  ⟨⟨rfl, rfl, rfl⟩,
    c7_cancel_twice_single_change [mkPendingTask 1 0] 1 20 30
      (mkPendingTask 1 0) rfl rfl rfl⟩

/-- `update` never changes any record's `session_id`: no patch carries that
field. -/
theorem update_map_session_id (tasks : List Task) (tid : Nat) (p : TaskPatch)
    (now : Nat) :
    (TaskStore.update tasks tid p now).2.map (fun t => t.session_id)
      = tasks.map (fun t => t.session_id) := by
  induction tasks with
  | nil => rfl
  | cons v rest ih =>
    by_cases hv : v.id = tid <;> simp [TaskStore.update, hv, ih]

/-- C10 — For every input to TaskStore.create, the created task record has
session_id equal to null regardless of any session_id supplied by the
caller: the session association established by the HTTP layer is carried
only inside task.metadata.session_id, never in the task's session_id field,
and no scheduler operation later sets task.session_id. -/
theorem c10_session_id_never_set :
    (∀ (tasks : List Task) (td : TaskData) (newId now : Nat),
      (TaskStore.create tasks td newId now).1.session_id = none) ∧
    (∀ (tasks : List Task) (td : TaskData) (newId now : Nat),
      (TaskStore.create tasks td newId now).2.map (fun t => t.session_id)
        = tasks.map (fun t => t.session_id) ++ [none]) ∧
    (∀ (tasks : List Task) (tid : Nat) (p : TaskPatch) (now : Nat),
      (TaskStore.update tasks tid p now).2.map (fun t => t.session_id)
        = tasks.map (fun t => t.session_id)) ∧
    (∀ (tasks : List Task) (tid now : Nat),
      (TaskStore.markProcessing tasks tid now).2.map (fun t => t.session_id)
        = tasks.map (fun t => t.session_id)) ∧
    (∀ (tasks : List Task) (tid : Nat) (res : Option String) (cost : Rat) (now : Nat),
      (TaskStore.markCompleted tasks tid res cost now).2.map (fun t => t.session_id)
        = tasks.map (fun t => t.session_id)) ∧
    (∀ (tasks : List Task) (tid : Nat) (err : Option String) (now : Nat),
      (TaskStore.markFailed tasks tid err now).2.map (fun t => t.session_id)
        = tasks.map (fun t => t.session_id)) ∧
    (∀ (tasks : List Task) (tid now : Nat),
      (TaskStore.cancel tasks tid now).2.map (fun t => t.session_id)
        = tasks.map (fun t => t.session_id)) ∧
    (∀ (tasks : List Task) (now : Nat),
      (restorePendingTasks tasks now).map (fun t => t.session_id)
        = tasks.map (fun t => t.session_id)) ∧
    (∀ (prompt projectPath : String) (model : Option String)
        (priority : Option Nat) (webhookUrl : Option String)
        (sessionId : Option Nat) (tasks : List Task) (newId now : Nat),
      (claudeRouteTaskData prompt projectPath model priority webhookUrl
          sessionId).session_id = none ∧
      (TaskStore.create tasks
          (claudeRouteTaskData prompt projectPath model priority webhookUrl
            sessionId) newId now).1.metadata.session_id = sessionId ∧
      (TaskStore.create tasks
          (claudeRouteTaskData prompt projectPath model priority webhookUrl
            sessionId) newId now).1.session_id = none) := by
  have hupd := update_map_session_id
  refine ⟨fun _ _ _ _ => rfl, ?_, hupd, ?_, ?_, ?_, ?_, ?_, ?_⟩
  · intro tasks td newId now
    simp [TaskStore.create]
  · intro tasks tid now
    exact hupd ..
  · intro tasks tid res cost now
    rw [TaskStore.markCompleted]
    cases TaskStore.get tasks tid <;> simp [hupd]
  · intro tasks tid err now
    rw [TaskStore.markFailed]
    cases TaskStore.get tasks tid <;> simp [hupd]
  · intro tasks tid now
    rw [TaskStore.cancel]
    cases TaskStore.get tasks tid with
    | none => rfl
    | some task =>
      dsimp only
      by_cases h : task.status ≠ TStatus.pending ∧ task.status ≠ TStatus.processing
      · rw [if_pos h]
      · rw [if_neg h]
        exact hupd ..
  · intro tasks now
    rw [restorePendingTasks]
    generalize TaskStore.list tasks (some TStatus.processing) none = L
    induction L generalizing tasks with
    | nil => rfl
    | cons t rest ih =>
      rw [List.foldl_cons]
      rw [ih]
      exact hupd ..
  · intro prompt projectPath model priority webhookUrl sessionId tasks newId now
    exact ⟨rfl, rfl, rfl⟩

/-- A task of the S6 scenario: bound to session 7 through its metadata (the
only place the route stores the association), already marked processing by
the dispatcher. -/
def mkC2Task (i : Nat) : Task :=
  { id := i
    created_at := i
    updated_at := 10
    status := .processing
    prompt := "p"
    project_path := "/w"
    model := "claude-sonnet-4-5"
    priority := 5
    result := none
    error := none
    started_at := some 10
    completed_at := none
    duration_ms := none
    cost_usd := 0
    session_id := none
    metadata := { session_id := some 7 } }

/-- The session of the S6 scenario, freshly created. -/
def c2sessions : List Session :=
  (SessionStore.create [] { project_path := "/w" } 7 0).2

/-- A successful executor reply costing $0.01. -/
def c2result : ExecResult :=
  { success := true, result := some "ok", cost_usd := 1 / 100 }

/-- S6 run: three tasks bound to session 7, each settled successfully by
`executeTask` with cost 0.01. -/
def c2run : List Task × List Session :=
  let p1 := executeTaskSettle [mkC2Task 1, mkC2Task 2, mkC2Task 3] c2sessions 1
    c2result 100
  let p2 := executeTaskSettle p1.1 p1.2 2 c2result 200
  executeTaskSettle p2.1 p2.2 3 c2result 300

/-- Counterexample to C2 as stated: after three successful settlements with
cost 0.01 each, the three tasks are completed with cost 0.01, yet the bound
session still has total_cost_usd 0 and messages_count 0 — not 0.03 and 3 —
because `executeTask` never calls `SessionStore.addCost` or
`SessionStore.incrementMessages` (nothing in the source does). -/
theorem c2_counterexample :
    c2result.cost_usd = 1 / 100 ∧
    c2run.1.map (fun t => t.status)
      = [TStatus.completed, TStatus.completed, TStatus.completed] ∧
    c2run.1.map (fun t => t.cost_usd)
      = [c2result.cost_usd, c2result.cost_usd, c2result.cost_usd] ∧
    c2run.1.map (fun t => t.metadata.session_id) = [some 7, some 7, some 7] ∧
    c2run.2.map (fun s => s.total_cost_usd) = [0] ∧
    c2run.2.map (fun s => s.messages_count) = [0] ∧
    ¬ c2run.2.map (fun s => s.total_cost_usd) = [3 / 100] ∧
    ¬ c2run.2.map (fun s => s.messages_count) = [3] := by
  have hzero : c2run.2.map (fun s => s.total_cost_usd) = [0] := rfl
  refine ⟨rfl, by decide, rfl, by decide, hzero, by decide, ?_, by decide⟩
  rw [hzero]
  intro h
  exact absurd (List.cons.inj h).1 (by norm_num)

/-- C2 (amended) — For every task whose executor run returns success, the
scheduler marks the task completed with the result and cost; it performs no
session accrual whatsoever: the session store is left unchanged, because
`executeTask` holds no reference to it and neither `SessionStore.addCost`
nor `SessionStore.incrementMessages` is called anywhere in the source.  In
particular a session with 3 successful tasks of cost 0.01 each ends with
total_cost_usd 0 and messages_count 0. -/
theorem c2_success_marks_completed_sessions_unchanged
    (tasks : List Task) (sessions : List Session) (tid : Nat)
    (r : ExecResult) (now : Nat) (t : Task)
    (hs : r.success = true) (hget : TaskStore.get tasks tid = some t) :
    (executeTaskSettle tasks sessions tid r now).2 = sessions ∧
    ∃ t2, TaskStore.get (executeTaskSettle tasks sessions tid r now).1 tid
        = some t2 ∧
      t2.status = TStatus.completed ∧
      t2.result = r.result ∧
      t2.cost_usd = r.cost_usd ∧
      t2.completed_at = some now := by
  set p : TaskPatch :=
    { status := some .completed
      completed_at := some (some now)
      result := some r.result
      cost_usd := some r.cost_usd
      duration_ms := some (t.started_at.map (fun s => (now : Int) - (s : Int))) }
    with hp
  have hsettle : executeTaskSettle tasks sessions tid r now
      = ((TaskStore.update tasks tid p now).2, sessions) := by
    rw [executeTaskSettle, if_pos hs, TaskStore.markCompleted, hget]
  refine ⟨by rw [hsettle], applyPatch t p now, ?_, ?_, ?_, ?_, ?_⟩
  · rw [hsettle]
    exact get_update_of_get tasks tid p now t hget
  · simp [applyPatch, hp]
  · simp [applyPatch, hp]
  · simp [applyPatch, hp]
  · simp [applyPatch, hp]

/-- Witness for the amended C2: one concrete successful settlement. -/
theorem c2_witness :
    (c2result.success = true ∧
      TaskStore.get [mkC2Task 1] 1 = some (mkC2Task 1)) ∧
    ((executeTaskSettle [mkC2Task 1] c2sessions 1 c2result 100).2 = c2sessions ∧
    ∃ t2, TaskStore.get
        (executeTaskSettle [mkC2Task 1] c2sessions 1 c2result 100).1 1
        = some t2 ∧
      t2.status = TStatus.completed ∧
      t2.result = c2result.result ∧
      t2.cost_usd = c2result.cost_usd ∧
      t2.completed_at = some 100) :=
  ⟨⟨rfl, rfl⟩,
    c2_success_marks_completed_sessions_unchanged [mkC2Task 1] c2sessions 1
      c2result 100 (mkC2Task 1) rfl rfl⟩

/-- Counterexample to C9 as stated: `addCost` accepts any delta with no
validation, so one `addCost` of -1 on a fresh session drives
`total_cost_usd` to -1 < 0. -/
theorem c9_counterexample :
    ((SessionStore.addCost c2sessions 7 (-1) 1).2.map
        (fun s => s.total_cost_usd)) = [-1] ∧
    ¬ (0 : Rat) ≤ -1 := by
  constructor
  · have h : (SessionStore.addCost c2sessions 7 (-1) 1).2.map
        (fun s => s.total_cost_usd) = [0 + -1] := rfl
    rw [h]
    norm_num
  · norm_num

/-- `incrementMessages` leaves every `total_cost_usd` where it was. -/
theorem incrementMessages_costs (sessions : List Session) (sid now : Nat) :
    (SessionStore.incrementMessages sessions sid now).2.map
        (fun s => s.total_cost_usd)
      = sessions.map (fun s => s.total_cost_usd) := by
  induction sessions with
  | nil => rfl
  | cons v rest ih =>
    by_cases hv : v.id = sid <;>
      simp [SessionStore.incrementMessages, hv, ih]

/-- Every `total_cost_usd` after `addCost` is an old one or an old one plus
the delta. -/
theorem addCost_mem (sessions : List Session) (sid : Nat) (d : Rat) (now : Nat) :
    ∀ s2 ∈ (SessionStore.addCost sessions sid d now).2, ∃ s ∈ sessions,
      s2.total_cost_usd = s.total_cost_usd ∨
      s2.total_cost_usd = s.total_cost_usd + d := by
  induction sessions with
  | nil => intro s2 h; simp [SessionStore.addCost] at h
  | cons v rest ih =>
    intro s2 h
    by_cases hv : v.id = sid
    · simp only [SessionStore.addCost, if_pos hv, List.mem_cons] at h
      rcases h with h | h
      · exact ⟨v, by simp, by rw [h]; right; rfl⟩
      · exact ⟨s2, by simp [h], Or.inl rfl⟩
    · simp only [SessionStore.addCost, if_neg hv, List.mem_cons] at h
      rcases h with h | h
      · exact ⟨v, by simp, by rw [h]; left; rfl⟩
      · obtain ⟨s, hs, hor⟩ := ih s2 h
        exact ⟨s, by simp [hs], hor⟩

/-- One session-store mutation with a non-negative cost delta preserves
non-negativity of every `total_cost_usd`. -/
theorem applySessionOp_nonneg (sessions : List Session) (op : SessionOp)
    (hd : 0 ≤ op.costDelta)
    (h0 : ∀ s ∈ sessions, 0 ≤ s.total_cost_usd) :
    ∀ s ∈ applySessionOp sessions op, 0 ≤ s.total_cost_usd := by
  intro s2 hs2
  cases op with
  | incMessages sid now =>
    have := incrementMessages_costs sessions sid now
    have hmem : s2.total_cost_usd ∈ (SessionStore.incrementMessages
        sessions sid now).2.map (fun s => s.total_cost_usd) :=
      List.mem_map_of_mem _ hs2
    rw [this] at hmem
    obtain ⟨s, hs, he⟩ := List.mem_map.mp hmem
    rw [← he]
    exact h0 s hs
  | addSessionCost sid d now =>
    obtain ⟨s, hs, hor⟩ := addCost_mem sessions sid d now s2 hs2
    rcases hor with h | h
    · rw [h]; exact h0 s hs
    · rw [h]
      have : (0 : Rat) ≤ d := hd
      have := h0 s hs
      linarith

/-- `msgCount` on a non-empty store. -/
theorem msgCount_cons (v : Session) (rest : List Session) (sid : Nat) :
    msgCount (v :: rest) sid
      = if v.id = sid then v.messages_count else msgCount rest sid := by
  rw [msgCount, SessionStore.get]
  by_cases h : v.id = sid
  · rw [List.find?_cons_of_pos _ (by simp [h]), if_pos h]
  · rw [List.find?_cons_of_neg _ (by simp [h]), if_neg h]
    rfl

/-- Unfolding of `incrementMessages` on a non-empty store. -/
theorem incrementMessages_cons (v : Session) (rest : List Session) (sid now : Nat) :
    (SessionStore.incrementMessages (v :: rest) sid now).2
      = if v.id = sid
        then { v with messages_count := v.messages_count + 1, updated_at := now } :: rest
        else v :: (SessionStore.incrementMessages rest sid now).2 := by
  by_cases h : v.id = sid <;> simp [SessionStore.incrementMessages, h]

/-- Unfolding of `addCost` on a non-empty store. -/
theorem addCost_cons (v : Session) (rest : List Session) (sid : Nat) (d : Rat)
    (now : Nat) :
    (SessionStore.addCost (v :: rest) sid d now).2
      = if v.id = sid
        then { v with total_cost_usd := v.total_cost_usd + d, updated_at := now } :: rest
        else v :: (SessionStore.addCost rest sid d now).2 := by
  by_cases h : v.id = sid <;> simp [SessionStore.addCost, h]

/-- One session-store mutation never decreases the `messages_count` the
store shows for any session id. -/
theorem applySessionOp_msg_mono (sessions : List Session) (op : SessionOp)
    (sid : Nat) :
    msgCount sessions sid ≤ msgCount (applySessionOp sessions op) sid := by
  cases op with
  | incMessages oid now =>
    induction sessions with
    | nil => exact le_refl _
    | cons v rest ih =>
      rw [applySessionOp] at ih ⊢
      rw [incrementMessages_cons]
      by_cases hv : v.id = oid
      · rw [if_pos hv, msgCount_cons, msgCount_cons]
        by_cases hs : v.id = sid
        · rw [if_pos hs, if_pos hs]
          exact Nat.le_succ _
        · rw [if_neg hs, if_neg hs]
      · rw [if_neg hv, msgCount_cons, msgCount_cons]
        by_cases hs : v.id = sid
        · rw [if_pos hs, if_pos hs]
        · rw [if_neg hs, if_neg hs]
          exact ih
  | addSessionCost oid d now =>
    induction sessions with
    | nil => exact le_refl _
    | cons v rest ih =>
      rw [applySessionOp] at ih ⊢
      rw [addCost_cons]
      by_cases hv : v.id = oid
      · rw [if_pos hv, msgCount_cons, msgCount_cons]
      · rw [if_neg hv, msgCount_cons, msgCount_cons]
        by_cases hs : v.id = sid
        · rw [if_pos hs, if_pos hs]
        · rw [if_neg hs, if_neg hs]
          exact ih

/-- Non-negativity carries through a whole operation sequence. -/
theorem runSessionOps_nonneg (ops : List SessionOp) (sessions : List Session)
    (hd : ∀ op ∈ ops, 0 ≤ op.costDelta)
    (h0 : ∀ s ∈ sessions, 0 ≤ s.total_cost_usd) :
    ∀ s ∈ runSessionOps sessions ops, 0 ≤ s.total_cost_usd := by
  induction ops generalizing sessions with
  | nil => exact h0
  | cons op rest ih =>
    rw [runSessionOps, List.foldl_cons]
    exact ih _ (fun o ho => hd o (by simp [ho]))
      (applySessionOp_nonneg sessions op (hd op (by simp)) h0)

/-- `messages_count` monotonicity carries through a whole operation
sequence. -/
theorem runSessionOps_msg_mono (ops : List SessionOp) (sessions : List Session)
    (sid : Nat) :
    msgCount sessions sid ≤ msgCount (runSessionOps sessions ops) sid := by
  induction ops generalizing sessions with
  | nil => exact le_refl _
  | cons op rest ih =>
    rw [runSessionOps, List.foldl_cons]
    exact le_trans (applySessionOp_msg_mono sessions op sid) (ih _)

/-- C9 (amended) — `addCost` accepts any delta without validation (the
as-stated claim fails: see the counterexample).  Along any sequence of
`incrementMessages`/`addCost` operations in which every `addCost` delta is
non-negative, every session's total_cost_usd stays ≥ 0 at every prefix of
the sequence, and the `messages_count` shown for any session id never
decreases between a prefix and the full sequence, regardless of session
status. -/
theorem c9_nonneg_and_monotone (sessions : List Session) (ops : List SessionOp)
    (hd : ∀ op ∈ ops, 0 ≤ op.costDelta)
    (h0 : ∀ s ∈ sessions, 0 ≤ s.total_cost_usd) :
    (∀ pre suff, ops = pre ++ suff →
      ∀ s ∈ runSessionOps sessions pre, 0 ≤ s.total_cost_usd) ∧
    (∀ pre suff sid, ops = pre ++ suff →
      msgCount (runSessionOps sessions pre) sid
        ≤ msgCount (runSessionOps sessions ops) sid) := by
  constructor
  · intro pre suff he
    exact runSessionOps_nonneg pre sessions
      (fun o ho => hd o (by rw [he]; exact List.mem_append_left _ ho)) h0
  · intro pre suff sid he
    rw [he]
    simp only [runSessionOps]
    rw [List.foldl_append]
    exact runSessionOps_msg_mono suff _ sid

/-- Witness for the amended C9: a fresh session, one addCost of +0.5 and one
incrementMessages. -/
theorem c9_witness :
    ((∀ op ∈ [SessionOp.addSessionCost 7 (1 / 2) 1, SessionOp.incMessages 7 2],
        0 ≤ op.costDelta) ∧
      (∀ s ∈ c2sessions, 0 ≤ s.total_cost_usd)) ∧
    ((∀ pre suff, [SessionOp.addSessionCost 7 (1 / 2) 1,
          SessionOp.incMessages 7 2] = pre ++ suff →
      ∀ s ∈ runSessionOps c2sessions pre, 0 ≤ s.total_cost_usd) ∧
    (∀ pre suff sid, [SessionOp.addSessionCost 7 (1 / 2) 1,
          SessionOp.incMessages 7 2] = pre ++ suff →
      msgCount (runSessionOps c2sessions pre) sid
        ≤ msgCount (runSessionOps c2sessions
            [SessionOp.addSessionCost 7 (1 / 2) 1,
              SessionOp.incMessages 7 2]) sid)) := by
  have hd : ∀ op ∈ [SessionOp.addSessionCost 7 (1 / 2) 1,
      SessionOp.incMessages 7 2], 0 ≤ op.costDelta := by
    intro op hop
    simp only [List.mem_cons, List.not_mem_nil, or_false] at hop
    rcases hop with rfl | rfl <;> norm_num [SessionOp.costDelta]
  have h0 : ∀ s ∈ c2sessions, 0 ≤ s.total_cost_usd := by
    intro s hs
    have he : s = (SessionStore.create [] { project_path := "/w" } 7 0).1 := by
      simpa [c2sessions, SessionStore.create] using hs
    rw [he]
    exact le_refl 0
  exact ⟨⟨hd, h0⟩, c9_nonneg_and_monotone c2sessions _ hd h0⟩

/-- `update` never changes the stored ids. -/
theorem update_map_id (tasks : List Task) (tid : Nat) (p : TaskPatch) (now : Nat) :
    (TaskStore.update tasks tid p now).2.map (fun t => t.id)
      = tasks.map (fun t => t.id) := by
  induction tasks with
  | nil => rfl
  | cons v rest ih =>
    by_cases hv : v.id = tid <;> simp [TaskStore.update, hv, ih]

/-- With distinct stored ids, `update` is the pointwise map that patches the
record with the matching id. -/
theorem update_eq_map_of_nodup (tasks : List Task) (tid : Nat) (p : TaskPatch)
    (now : Nat) (hnd : (tasks.map (fun t => t.id)).Nodup) :
    (TaskStore.update tasks tid p now).2
      = tasks.map (fun v => if v.id = tid then applyPatch v p now else v) := by
  induction tasks with
  | nil => rfl
  | cons v rest ih =>
    rw [List.map_cons, List.nodup_cons] at hnd
    by_cases hv : v.id = tid
    · simp only [TaskStore.update, if_pos hv, List.map_cons, if_pos hv]
      congr 1
      have hid : ∀ u ∈ rest, (if u.id = tid then applyPatch u p now else u) = u := by
        intro u hu
        rw [if_neg]
        intro he
        exact hnd.1 (by rw [hv, ← he]; exact List.mem_map_of_mem _ hu)
      rw [List.map_congr_left hid, List.map_id']
    · simp only [TaskStore.update, if_neg hv, List.map_cons, if_neg hv]
      rw [ih hnd.2]

/-- Membership in an unlimited status listing. -/
theorem mem_list_status (tasks : List Task) (st : TStatus) (t : Task) :
    t ∈ TaskStore.list tasks (some st) none ↔ t ∈ tasks ∧ t.status = st := by
  simp [TaskStore.list, List.mem_filter]

/-- A status listing keeps ids distinct. -/
theorem list_ids_nodup (tasks : List Task) (st : TStatus)
    (hnd : (tasks.map (fun t => t.id)).Nodup) :
    ((TaskStore.list tasks (some st) none).map (fun t => t.id)).Nodup := by
  have hperm : List.Perm (TaskStore.list tasks (some st) none)
      (tasks.filter (fun t => t.status == st)) :=
    List.mergeSort_perm _ _
  refine ((hperm.map (fun t => t.id)).nodup_iff).mpr ?_
  exact ((List.filter_sublist tasks).map (fun t => t.id)).nodup hnd

/-- Folding `update` over a list of tasks with distinct ids patches exactly
the records whose id occurs in the list, each once. -/
theorem foldl_update_eq_map (now : Nat) (L : List Task) :
    ∀ (acc : List Task), ((acc.map (fun t => t.id)).Nodup) →
    ((L.map (fun t => t.id)).Nodup) →
    L.foldl (fun acc t => (TaskStore.update acc t.id pendingPatch now).2) acc
      = acc.map (fun v => if v.id ∈ L.map (fun t => t.id)
          then applyPatch v pendingPatch now else v) := by
  induction L with
  | nil =>
    intro acc _ _
    simp
  | cons t L2 ih =>
    intro acc hacc hL
    rw [List.map_cons, List.nodup_cons] at hL
    rw [List.foldl_cons, update_eq_map_of_nodup acc t.id pendingPatch now hacc]
    have hacc2 : ((acc.map (fun v => if v.id = t.id
        then applyPatch v pendingPatch now else v)).map (fun t => t.id)).Nodup := by
      rw [← update_eq_map_of_nodup acc t.id pendingPatch now hacc, update_map_id]
      exact hacc
    rw [ih _ hacc2 hL.2, List.map_map]
    apply List.map_congr_left
    intro v _
    by_cases hv : v.id = t.id
    · have h1 : (if v.id = t.id then applyPatch v pendingPatch now else v)
          = applyPatch v pendingPatch now := if_pos hv
      simp only [Function.comp_apply, h1]
      rw [if_neg, if_pos (by simp [hv])]
      rw [applyPatch_id, hv]
      exact hL.1
    · have h1 : (if v.id = t.id then applyPatch v pendingPatch now else v) = v :=
        if_neg hv
      simp only [Function.comp_apply, h1]
      by_cases hm : v.id ∈ L2.map (fun t => t.id)
      · rw [if_pos hm, if_pos (by simp [hm])]
      · rw [if_neg hm, if_neg (by simp [hv, hm])]

/-- With distinct stored ids, crash recovery is the pointwise reset of every
`processing` record to `pending`. -/
theorem restore_eq_map (tasks : List Task) (now : Nat)
    (hnd : (tasks.map (fun t => t.id)).Nodup) :
    restorePendingTasks tasks now
      = tasks.map (fun v => if v.status = TStatus.processing
          then applyPatch v pendingPatch now else v) := by
  rw [restorePendingTasks,
    foldl_update_eq_map now _ tasks hnd (list_ids_nodup tasks _ hnd)]
  apply List.map_congr_left
  intro v hv
  by_cases hp : v.status = TStatus.processing
  · rw [if_pos hp, if_pos]
    exact List.mem_map_of_mem _ ((mem_list_status tasks _ v).mpr ⟨hv, hp⟩)
  · rw [if_neg hp, if_neg]
    intro hm
    obtain ⟨u, hu, hid⟩ := List.mem_map.mp hm
    obtain ⟨hu1, hu2⟩ := (mem_list_status tasks _ u).mp hu
    have : u = v := List.inj_on_of_nodup_map hnd hu1 hv hid
    rw [this] at hu2
    exact hp hu2

/-- C4 — On scheduler start, every task whose persisted status is
`processing` is reset to `pending`, and this reset preserves the task's
priority and created_at while leaving started_at as it was; after start
completes, no task remains in status `processing` without an active
executor (`start` awaits `restorePendingTasks` before spawning any
dispatch, so no task is `processing` at all in the restored store). -/
theorem c4_crash_recovery (tasks : List Task) (now : Nat)
    (hnd : (tasks.map (fun t => t.id)).Nodup) :
    restorePendingTasks tasks now
      = tasks.map (fun v => if v.status = TStatus.processing
          then applyPatch v pendingPatch now else v) ∧
    (∀ t ∈ restorePendingTasks tasks now, t.status ≠ TStatus.processing) ∧
    (∀ t ∈ tasks, t.status = TStatus.processing →
      ∃ t2 ∈ restorePendingTasks tasks now, t2.id = t.id ∧
        t2.status = TStatus.pending ∧ t2.priority = t.priority ∧
        t2.created_at = t.created_at ∧ t2.started_at = t.started_at) ∧
    (∀ t ∈ tasks, t.status ≠ TStatus.processing →
      t ∈ restorePendingTasks tasks now) := by
  have hmap := restore_eq_map tasks now hnd
  refine ⟨hmap, ?_, ?_, ?_⟩
  · intro t ht
    rw [hmap] at ht
    obtain ⟨u, _, he⟩ := List.mem_map.mp ht
    by_cases hp : u.status = TStatus.processing
    · rw [if_pos hp] at he
      rw [← he]
      intro hcontra
      simp [applyPatch, pendingPatch] at hcontra
    · rw [if_neg hp] at he
      rw [← he]
      exact hp
  · intro t ht hp
    refine ⟨applyPatch t pendingPatch now, ?_, rfl, ?_, rfl, rfl, rfl⟩
    · rw [hmap]
      have : (if t.status = TStatus.processing
          then applyPatch t pendingPatch now else t) = applyPatch t pendingPatch now :=
        if_pos hp
      rw [← this]
      exact List.mem_map_of_mem _ ht
    · simp [applyPatch, pendingPatch]
  · intro t ht hp
    rw [hmap]
    have : (if t.status = TStatus.processing
        then applyPatch t pendingPatch now else t) = t := if_neg hp
    rw [← this]
    exact List.mem_map_of_mem _ ht

/-- Witness for C4: a store holding one pending, one processing and one
completed task. -/
theorem c4_witness :
    (([mkPendingTask 5 0, mkC2Task 2, c1task].map (fun t => t.id)).Nodup) ∧
    (restorePendingTasks [mkPendingTask 5 0, mkC2Task 2, c1task] 99
      = [mkPendingTask 5 0, mkC2Task 2, c1task].map
          (fun v => if v.status = TStatus.processing
            then applyPatch v pendingPatch 99 else v) ∧
    (∀ t ∈ restorePendingTasks [mkPendingTask 5 0, mkC2Task 2, c1task] 99,
      t.status ≠ TStatus.processing) ∧
    (∀ t ∈ [mkPendingTask 5 0, mkC2Task 2, c1task],
      t.status = TStatus.processing →
      ∃ t2 ∈ restorePendingTasks [mkPendingTask 5 0, mkC2Task 2, c1task] 99,
        t2.id = t.id ∧ t2.status = TStatus.pending ∧ t2.priority = t.priority ∧
        t2.created_at = t.created_at ∧ t2.started_at = t.started_at) ∧
    (∀ t ∈ [mkPendingTask 5 0, mkC2Task 2, c1task],
      t.status ≠ TStatus.processing →
      t ∈ restorePendingTasks [mkPendingTask 5 0, mkC2Task 2, c1task] 99)) :=
  ⟨by decide, c4_crash_recovery [mkPendingTask 5 0, mkC2Task 2, c1task] 99 (by decide)⟩

/-- The strict dispatch order of the claims: priority descending, then
created_at ascending, with equal-priority equal-created_at ties broken by
task id ascending. -/
def taskKeyLt (a b : Task) : Prop :=
  b.priority < a.priority ∨ (a.priority = b.priority ∧
    (a.created_at < b.created_at ∨
      (a.created_at = b.created_at ∧ a.id < b.id)))

/-- Unfolding of the JS comparator into a proposition. -/
theorem taskLe_iff (a b : Task) :
    taskLe a b = true ↔
      (b.priority < a.priority ∨
        (a.priority = b.priority ∧ a.created_at ≤ b.created_at)) := by
  rw [taskLe]
  split_ifs with h <;> simp only [decide_eq_true_eq] <;> omega

/-- The comparator is total. -/
theorem taskLe_total (a b : Task) : taskLe a b || taskLe b a := by
  simp only [Bool.or_eq_true, taskLe_iff]
  omega

/-- The comparator is transitive. -/
theorem taskLe_trans (a b c : Task) :
    taskLe a b → taskLe b c → taskLe a c := by
  simp only [taskLe_iff]
  omega

/-- In a list strictly sorted by id, two members with increasing ids form a
sublist in that order. -/
theorem pair_sublist_of_id_lt {l : List Task}
    (h : l.Pairwise (fun u v => u.id < v.id)) {a b : Task}
    (ha : a ∈ l) (hb : b ∈ l) (hab : a.id < b.id) : [a, b].Sublist l := by
  induction l with
  | nil => cases ha
  | cons x rest ih =>
    rw [List.pairwise_cons] at h
    rcases List.mem_cons.mp ha with rfl | ha2
    · rcases List.mem_cons.mp hb with rfl | hb2
      · exact absurd hab (lt_irrefl _)
      · exact List.Sublist.cons₂ a (List.singleton_sublist.mpr hb2)
    · rcases List.mem_cons.mp hb with rfl | hb2
      · have := h.1 a ha2
        omega
      · exact (ih h.2 ha2 hb2).cons x

/-- In a duplicate-free list, a pair cannot occur as a sublist in both
orders unless its two components are equal. -/
theorem eq_of_pair_sublist_swap {l : List Task} (hnd : l.Nodup) {a b : Task}
    (h1 : [a, b].Sublist l) (h2 : [b, a].Sublist l) : a = b := by
  induction l with
  | nil => cases h1
  | cons x rest ih =>
    rw [List.nodup_cons] at hnd
    cases h1 with
    | cons _ h1a =>
      cases h2 with
      | cons _ h2a => exact ih hnd.2 h1a h2a
      | cons₂ h2a =>
        have hmem : b ∈ rest := h1a.subset (by simp)
        exact absurd hmem hnd.1
    | cons₂ h1a =>
      cases h2 with
      | cons _ h2a =>
        have hmem : a ∈ rest := h2a.subset (by simp)
        exact absurd hmem hnd.1
      | cons₂ h2a => rfl

/-- The stable sort of an id-sorted duplicate-free list is strictly ordered
by the full dispatch key: the comparator orders distinct keys and stability
orders key ties by position, which coincides with id order. -/
theorem mergeSort_pairwise_keyLt {l : List Task}
    (hid : l.Pairwise (fun u v => u.id < v.id)) :
    (l.mergeSort taskLe).Pairwise taskKeyLt := by
  have hndids : (l.map (fun t => t.id)).Nodup :=
    List.Pairwise.map _ (fun a b h => Nat.ne_of_lt h) hid
  have hnd : l.Nodup :=
    hid.imp (fun {u v} h => by intro he; rw [he] at h; omega)
  have hndout : (l.mergeSort taskLe).Nodup :=
    ((List.mergeSort_perm l taskLe).nodup_iff).mpr hnd
  rw [List.pairwise_iff_forall_sublist]
  intro a b hsub
  have hle : taskLe a b :=
    List.pairwise_iff_forall_sublist.mp
      (List.sorted_mergeSort taskLe_trans taskLe_total l) hsub
  have hamem : a ∈ l := List.mem_mergeSort.mp (hsub.subset (by simp))
  have hbmem : b ∈ l := List.mem_mergeSort.mp (hsub.subset (by simp))
  have hab : a ≠ b := by
    intro he
    subst he
    have : ([a, a] : List Task).Nodup := hsub.nodup hndout
    simp at this
  rw [taskLe_iff] at hle
  rcases hle with h | ⟨hp, hc⟩
  · exact Or.inl h
  · refine Or.inr ⟨hp, ?_⟩
    rcases Nat.lt_or_ge a.created_at b.created_at with h | h
    · exact Or.inl h
    · have hce : a.created_at = b.created_at := le_antisymm hc h
      refine Or.inr ⟨hce, ?_⟩
      have hidne : a.id ≠ b.id := by
        intro he
        exact hab (List.inj_on_of_nodup_map hndids hamem hbmem he)
      rcases Nat.lt_or_ge a.id b.id with hlt | hge
      · exact hlt
      · exfalso
        have hba : b.id < a.id := by omega
        have hsubin : [b, a].Sublist l := pair_sublist_of_id_lt hid hbmem hamem hba
        have hleba : taskLe b a := by
          rw [taskLe_iff]
          right
          exact ⟨hp.symm, by omega⟩
        have hswap : [b, a].Sublist (l.mergeSort taskLe) :=
          List.pair_sublist_mergeSort taskLe_trans taskLe_total hleba hsubin
        exact hab (eq_of_pair_sublist_swap hndout hsub hswap)

/-- Modelled from the spec: `generateId()` lives in the PersistentStore
base class, which is not under src/; the spec says it returns a string
"unique within the process and sortable by creation time" (hexadecimal of a
monotonic counter plus random suffix), and `create` appends, so a stored
task list is strictly id-sorted in creation order.  The embedding states
this as a hypothesis on the store. -/
def idsCreationSorted (tasks : List Task) : Prop :=
  tasks.Pairwise (fun u v => u.id < v.id)

instance (tasks : List Task) : Decidable (idsCreationSorted tasks) := by
  rw [idsCreationSorted]
  infer_instance

/-- C6 — For every set of stored tasks, getNextPending returns the pending
task that is first in the order (priority descending, created_at
ascending), with equal-priority equal-created_at ties broken by task id;
list({status, limit}) returns matching tasks in the same order (`limit` is
applied as a prefix; JS treats `limit: 0` as absent). -/
theorem c6_dispatch_order (tasks : List Task) (hid : idsCreationSorted tasks) :
    (∀ t, TaskStore.getNextPending tasks = some t →
      t ∈ tasks ∧ t.status = TStatus.pending ∧
      ∀ u ∈ tasks, u.status = TStatus.pending → u ≠ t → taskKeyLt t u) ∧
    (TaskStore.getNextPending tasks = none ↔
      ∀ u ∈ tasks, u.status ≠ TStatus.pending) ∧
    (∀ st : TStatus,
      List.Perm (TaskStore.list tasks (some st) none)
        (tasks.filter (fun u => u.status == st)) ∧
      (TaskStore.list tasks (some st) none).Pairwise taskKeyLt ∧
      (∀ n, TaskStore.list tasks (some st) (some n)
        = if n = 0 then TaskStore.list tasks (some st) none
          else (TaskStore.list tasks (some st) none).take n)) := by
  rw [idsCreationSorted] at hid
  refine ⟨?_, ?_, ?_⟩
  · intro t ht
    have hfil : (tasks.filter
        (fun u => u.status == TStatus.pending)).Pairwise
          (fun u v => u.id < v.id) :=
      hid.sublist (List.filter_sublist tasks)
    have hpw := mergeSort_pairwise_keyLt hfil
    rw [TaskStore.getNextPending] at ht
    cases hout : (tasks.filter
        (fun u => u.status == TStatus.pending)).mergeSort taskLe with
    | nil => rw [hout] at ht; cases ht
    | cons y tl =>
      rw [hout] at ht hpw
      have hyt : y = t := by simpa using ht
      subst hyt
      have hymem : y ∈ tasks.filter (fun u => u.status == TStatus.pending) := by
        have hy2 : y ∈ (tasks.filter
            (fun u => u.status == TStatus.pending)).mergeSort taskLe := by
          rw [hout]
          simp
        exact List.mem_mergeSort.mp hy2
      rw [List.mem_filter] at hymem
      refine ⟨hymem.1, by simpa using hymem.2, ?_⟩
      intro u hu hup hune
      have humem : u ∈ tasks.filter (fun v => v.status == TStatus.pending) :=
        List.mem_filter.mpr ⟨hu, by simp [hup]⟩
      have : u ∈ y :: tl := by
        rw [← hout]
        exact List.mem_mergeSort.mpr humem
      rcases List.mem_cons.mp this with rfl | hutl
      · exact absurd rfl hune
      · exact List.rel_of_pairwise_cons hpw hutl
  · rw [TaskStore.getNextPending, List.head?_eq_none_iff]
    constructor
    · intro hnil u hu hup
      have : u ∈ tasks.filter (fun v => v.status == TStatus.pending) :=
        List.mem_filter.mpr ⟨hu, by simp [hup]⟩
      have h2 : u ∈ (tasks.filter
          (fun v => v.status == TStatus.pending)).mergeSort taskLe :=
        List.mem_mergeSort.mpr this
      rw [hnil] at h2
      cases h2
    · intro hall
      have : tasks.filter (fun v => v.status == TStatus.pending) = [] := by
        rw [List.filter_eq_nil_iff]
        intro u hu
        simp [hall u hu]
      rw [this, List.mergeSort_nil]
  · intro st
    have hfil : (tasks.filter (fun u => u.status == st)).Pairwise
        (fun u v => u.id < v.id) :=
      hid.sublist (List.filter_sublist tasks)
    exact ⟨List.mergeSort_perm _ _, mergeSort_pairwise_keyLt hfil, fun n => rfl⟩

/-- Witness for C6: three tasks with increasing ids, a priority-7 newcomer,
two equal-key pending tasks, and a processing task. -/
theorem c6_witness :
    idsCreationSorted
      [mkPendingTask 1 40, { mkPendingTask 2 40 with priority := 7 },
        mkC2Task 3, mkPendingTask 4 40] ∧
    ((∀ t, TaskStore.getNextPending
        [mkPendingTask 1 40, { mkPendingTask 2 40 with priority := 7 },
          mkC2Task 3, mkPendingTask 4 40] = some t →
      t ∈ [mkPendingTask 1 40, { mkPendingTask 2 40 with priority := 7 },
          mkC2Task 3, mkPendingTask 4 40] ∧ t.status = TStatus.pending ∧
      ∀ u ∈ [mkPendingTask 1 40, { mkPendingTask 2 40 with priority := 7 },
          mkC2Task 3, mkPendingTask 4 40],
        u.status = TStatus.pending → u ≠ t → taskKeyLt t u) ∧
    (TaskStore.getNextPending
        [mkPendingTask 1 40, { mkPendingTask 2 40 with priority := 7 },
          mkC2Task 3, mkPendingTask 4 40] = none ↔
      ∀ u ∈ [mkPendingTask 1 40, { mkPendingTask 2 40 with priority := 7 },
          mkC2Task 3, mkPendingTask 4 40], u.status ≠ TStatus.pending) ∧
    (∀ st : TStatus,
      List.Perm (TaskStore.list
          [mkPendingTask 1 40, { mkPendingTask 2 40 with priority := 7 },
            mkC2Task 3, mkPendingTask 4 40] (some st) none)
        ([mkPendingTask 1 40, { mkPendingTask 2 40 with priority := 7 },
            mkC2Task 3, mkPendingTask 4 40].filter (fun u => u.status == st)) ∧
      (TaskStore.list
          [mkPendingTask 1 40, { mkPendingTask 2 40 with priority := 7 },
            mkC2Task 3, mkPendingTask 4 40] (some st) none).Pairwise taskKeyLt ∧
      (∀ n, TaskStore.list
          [mkPendingTask 1 40, { mkPendingTask 2 40 with priority := 7 },
            mkC2Task 3, mkPendingTask 4 40] (some st) (some n)
        = if n = 0
          then TaskStore.list
            [mkPendingTask 1 40, { mkPendingTask 2 40 with priority := 7 },
              mkC2Task 3, mkPendingTask 4 40] (some st) none
          else (TaskStore.list
            [mkPendingTask 1 40, { mkPendingTask 2 40 with priority := 7 },
              mkC2Task 3, mkPendingTask 4 40] (some st) none).take n))) :=
  ⟨by decide, c6_dispatch_order _ (by decide)⟩

/-- Splitting off the last attempt number. -/
theorem range'_one_split (a : Nat) (ha : 1 ≤ a) :
    List.range' 1 a = List.range' 1 (a - 1) ++ [a] := by
  conv_lhs => rw [show a = (a - 1) + 1 by omega]
  rw [List.range'_1_concat]
  have h : 1 + (a - 1) = a := by omega
  rw [h]

/-- Attempts before a bound below `M` all sleep. -/
theorem filter_range'_of_lt (k M : Nat) (h : k < M) :
    (List.range' 1 k).filter (fun b => decide (b < M)) = List.range' 1 k := by
  rw [List.filter_eq_self]
  intro b hb
  rw [List.mem_range'_1] at hb
  simp only [decide_eq_true_eq]
  omega

/-- The final attempt `M` does not sleep. -/
theorem filter_range'_self (M : Nat) (h : 1 ≤ M) :
    (List.range' 1 M).filter (fun b => decide (b < M)) = List.range' 1 (M - 1) := by
  rw [range'_one_split M h, List.filter_append,
    filter_range'_of_lt (M - 1) M (by omega)]
  simp

/-- The retry-policy contract of a notify trace whose remaining attempts
start at `a`: at most `maxRetries` attempts; the sleeps are exactly the
backoff delays of the non-final attempts made; a success carries a 2xx
status from its own attempt, is the last attempt, and every earlier attempt
was a rejection; a failure means all `maxRetries` attempts were rejections
and carries the last error; and the first 2xx attempt is returned. -/
def NotifyProps (oc : Nat → AxiosOutcome) (maxRetries a : Nat)
    (T : NotifyTrace) : Prop :=
  T.attempts ≤ maxRetries ∧
  T.sleeps = (List.range' 1 (T.attempts - 1)).map backoffDelay ∧
  (∀ s j, T.res = NotifyRes.ok s j →
    j = T.attempts ∧ oc j = AxiosOutcome.resolved s ∧ 200 ≤ s ∧ s < 300 ∧
    ∀ b, 1 ≤ b → b < j → ∃ m, oc b = AxiosOutcome.rejected m) ∧
  (∀ le, T.res = NotifyRes.fail le →
    T.attempts = maxRetries ∧
    (∃ m, oc maxRetries = AxiosOutcome.rejected m ∧ le = some m) ∧
    ∀ b, 1 ≤ b → b ≤ maxRetries → ∃ m, oc b = AxiosOutcome.rejected m) ∧
  (∀ s j, oc j = AxiosOutcome.resolved s → a ≤ j → j ≤ maxRetries →
    (∀ b, a ≤ b → b < j → ∃ m, oc b = AxiosOutcome.rejected m) →
    T.res = NotifyRes.ok s j)

/-- The retry loop satisfies the contract from any suffix position, under
axios's default validateStatus (resolved outcomes are 2xx). -/
theorem notifyGo_spec (oc : Nat → AxiosOutcome) (maxR : Nat)
    (hax : axiosDefaultValidate oc) (hmr : 1 ≤ maxR) :
    ∀ (k a : Nat) (le0 : Option String),
      1 ≤ a → a + k = maxR + 1 →
      (∀ b, 1 ≤ b → b < a → ∃ m, oc b = AxiosOutcome.rejected m) →
      ((a = 1 ∧ le0 = none) ∨
        (2 ≤ a ∧ ∃ m, oc (a - 1) = AxiosOutcome.rejected m ∧ le0 = some m)) →
      NotifyProps oc maxR a
        (notifyGo oc maxR (List.range' a k) le0 (a - 1)
          (((List.range' 1 (a - 1)).filter (fun b => decide (b < maxR))).map
            backoffDelay)) := by
  intro k
  induction k with
  | zero =>
    intro a le0 ha hk hprev hle
    have haeq : a = maxR + 1 := by omega
    subst haeq
    rw [List.range'_zero, NotifyProps]
    simp only [notifyGo, Nat.add_sub_cancel]
    refine ⟨le_refl _, ?_, ?_, ?_, ?_⟩
    · exact congrArg (List.map backoffDelay) (filter_range'_self maxR hmr)
    · intro s j h
      exact NotifyRes.noConfusion h
    · intro le h
      rcases hle with ⟨h1, _⟩ | ⟨_, m, hm, hle0⟩
      · omega
      · simp only [Nat.add_sub_cancel] at hm
        refine ⟨by trivial, ⟨m, hm, ?_⟩, fun b hb1 hb2 => hprev b hb1 (by omega)⟩
        cases h
        exact hle0
    · intro s j hj hge hle2 hrej
      omega
  | succ k2 ih =>
    intro a le0 ha hk hprev hle
    rw [List.range'_succ, NotifyProps]
    simp only [notifyGo]
    cases hoa : oc a with
    | resolved s0 =>
      obtain ⟨h2a, h2b⟩ := hax a s0 hoa
      dsimp only
      rw [if_pos ⟨h2a, h2b⟩]
      dsimp only
      refine ⟨by omega, ?_, ?_, ?_, ?_⟩
      · rw [filter_range'_of_lt (a - 1) maxR (by omega)]
      · intro s j h
        cases h
        exact ⟨rfl, hoa, h2a, h2b, fun b hb1 hb2 => hprev b hb1 hb2⟩
      · intro le h
        exact NotifyRes.noConfusion h
      · intro s j hj hge hle2 hrej
        rcases Nat.eq_or_lt_of_le hge with he | hlt2
        · subst he
          rw [hoa] at hj
          cases hj
          rfl
        · obtain ⟨m, hm⟩ := hrej a (Nat.le_refl a) hlt2
          rw [hoa] at hm
          exact AxiosOutcome.noConfusion hm
    | rejected m0 =>
      dsimp only
      have hprev2 : ∀ b, 1 ≤ b → b < a + 1 →
          ∃ m, oc b = AxiosOutcome.rejected m := by
        intro b hb1 hb2
        by_cases hba : b < a
        · exact hprev b hb1 hba
        · have hbe : b = a := by omega
          rw [hbe, hoa]
          exact ⟨m0, rfl⟩
      have hle2 : (a + 1 = 1 ∧ (some m0 : Option String) = none) ∨
          (2 ≤ a + 1 ∧ ∃ m, oc (a + 1 - 1) = AxiosOutcome.rejected m ∧
            (some m0 : Option String) = some m) :=
        Or.inr ⟨by omega, m0, by simpa using hoa, rfl⟩
      have IH := ih (a + 1) (some m0) (by omega) (by omega) hprev2 hle2
      simp only [Nat.add_sub_cancel] at IH
      rw [NotifyProps] at IH
      obtain ⟨i1, i2, i3, i4, i5⟩ := IH
      have hweak : ∀ s j, oc j = AxiosOutcome.resolved s → a ≤ j → j ≤ maxR →
          (∀ b, a ≤ b → b < j → ∃ m, oc b = AxiosOutcome.rejected m) →
          (notifyGo oc maxR (List.range' (a + 1) k2) (some m0) a
            (((List.range' 1 a).filter (fun b => decide (b < maxR))).map
              backoffDelay)).res = NotifyRes.ok s j := by
        intro s j hj hge hle3 hrej
        rcases Nat.eq_or_lt_of_le hge with he | hlt2
        · subst he
          rw [hoa] at hj
          exact AxiosOutcome.noConfusion hj
        · exact i5 s j hj (by omega) hle3 (fun b hb1 hb2 => hrej b (by omega) hb2)
      by_cases hlt : a < maxR
      · rw [if_pos hlt]
        have hsl : (((List.range' 1 (a - 1)).filter
              (fun b => decide (b < maxR))).map backoffDelay) ++ [backoffDelay a]
            = ((List.range' 1 a).filter (fun b => decide (b < maxR))).map
              backoffDelay := by
          rw [range'_one_split a ha, List.filter_append, List.map_append]
          have hfa : List.filter (fun b => decide (b < maxR)) [a] = [a] := by
            simp [List.filter_cons, hlt]
          rw [hfa]
          rfl
        rw [hsl]
        exact ⟨i1, i2, i3, i4, hweak⟩
      · rw [if_neg hlt]
        have hsl : (((List.range' 1 (a - 1)).filter
              (fun b => decide (b < maxR))).map backoffDelay)
            = ((List.range' 1 a).filter (fun b => decide (b < maxR))).map
              backoffDelay := by
          rw [range'_one_split a ha, List.filter_append]
          have hfa : List.filter (fun b => decide (b < maxR)) [a] = [] := by
            simp [List.filter_cons, hlt]
          rw [hfa, List.append_nil]
        rw [hsl]
        exact ⟨i1, i2, i3, i4, hweak⟩

/-- C8 — For every webhook delivery, the notifier makes at most max_retries
attempts (default 3), treats exactly the HTTP statuses in [200, 299] as
success, sleeps min(1s * 2^(attempt-1), 10s) between consecutive attempts
(so delays 0, 1 s, 2 s before attempts 1, 2, 3), returns
{success: true, status, attempt} on the first success, and after the final
failed attempt returns a failure carrying the last error without retrying
further.  Stated under axios's default validateStatus, which rejects every
non-2xx response (so each failed attempt lands in the catch block that
performs the backoff sleep). -/
theorem c8_webhook_retry_policy (oc : Nat → AxiosOutcome) (maxR : Nat)
    (hax : axiosDefaultValidate oc) (hmr : 1 ≤ maxR) :
    (runNotify oc maxR).attempts ≤ maxR ∧
    (runNotify oc maxR).sleeps
      = (List.range' 1 ((runNotify oc maxR).attempts - 1)).map backoffDelay ∧
    (∀ s j, (runNotify oc maxR).res = NotifyRes.ok s j →
      j = (runNotify oc maxR).attempts ∧ oc j = AxiosOutcome.resolved s ∧
      200 ≤ s ∧ s < 300 ∧
      ∀ b, 1 ≤ b → b < j → ∃ m, oc b = AxiosOutcome.rejected m) ∧
    (∀ le, (runNotify oc maxR).res = NotifyRes.fail le →
      (runNotify oc maxR).attempts = maxR ∧
      (∃ m, oc maxR = AxiosOutcome.rejected m ∧ le = some m) ∧
      ∀ b, 1 ≤ b → b ≤ maxR → ∃ m, oc b = AxiosOutcome.rejected m) ∧
    (∀ s j, oc j = AxiosOutcome.resolved s → 1 ≤ j → j ≤ maxR →
      (∀ b, 1 ≤ b → b < j → ∃ m, oc b = AxiosOutcome.rejected m) →
      (runNotify oc maxR).res = NotifyRes.ok s j) := by
  have h := notifyGo_spec oc maxR hax hmr maxR 1 none (le_refl 1) (by omega)
    (fun b hb1 hb2 => absurd hb1 (by omega)) (Or.inl ⟨rfl, rfl⟩)
  rw [NotifyProps] at h
  exact h

/-- The S5 oracle: 503 on attempts 1 and 2 (axios rejects them), 200 on
attempt 3. -/
def c8oc : Nat → AxiosOutcome := fun a =>
  if a ≤ 2 then AxiosOutcome.rejected "Request failed with status code 503"
  else AxiosOutcome.resolved 200

/-- Witness for C8: the S5 scenario — exactly 3 attempts with sleeps 1 s
then 2 s, final result success with status 200 on attempt 3. -/
theorem c8_witness :
    (axiosDefaultValidate c8oc ∧ 1 ≤ 3) ∧
    runNotify c8oc 3
      = ⟨NotifyRes.ok 200 3, 3, [1000, 2000]⟩ ∧
    ((runNotify c8oc 3).attempts ≤ 3 ∧
    (runNotify c8oc 3).sleeps
      = (List.range' 1 ((runNotify c8oc 3).attempts - 1)).map backoffDelay ∧
    (∀ s j, (runNotify c8oc 3).res = NotifyRes.ok s j →
      j = (runNotify c8oc 3).attempts ∧ c8oc j = AxiosOutcome.resolved s ∧
      200 ≤ s ∧ s < 300 ∧
      ∀ b, 1 ≤ b → b < j → ∃ m, c8oc b = AxiosOutcome.rejected m) ∧
    (∀ le, (runNotify c8oc 3).res = NotifyRes.fail le →
      (runNotify c8oc 3).attempts = 3 ∧
      (∃ m, c8oc 3 = AxiosOutcome.rejected m ∧ le = some m) ∧
      ∀ b, 1 ≤ b → b ≤ 3 → ∃ m, c8oc b = AxiosOutcome.rejected m) ∧
    (∀ s j, c8oc j = AxiosOutcome.resolved s → 1 ≤ j → j ≤ 3 →
      (∀ b, 1 ≤ b → b < j → ∃ m, c8oc b = AxiosOutcome.rejected m) →
      (runNotify c8oc 3).res = NotifyRes.ok s j)) := by
  have haxc : axiosDefaultValidate c8oc := by
    intro a s h
    simp only [c8oc] at h
    by_cases ha : a ≤ 2
    · rw [if_pos ha] at h
      exact AxiosOutcome.noConfusion h
    · rw [if_neg ha] at h
      cases h
      omega
  exact ⟨⟨haxc, by omega⟩, by decide,
    c8_webhook_retry_policy c8oc 3 haxc (by omega)⟩

end ClaudeCodeServer
